import Mathlib

/-!
Shallow embedding of `src/craig.py` (a Craigslist scraping bot) and proofs
about the claims of its specification.

Python strings are modelled as `List Char`; `None`-able settings fields are
`Option`; a raised exception is `Except.error`.  File contents are modelled
as their line decomposition (a list of lines, each line keeping its
terminating newline character), which is faithful whenever the written
items contain no newline character.
-/

namespace Craig

/-- Python strings, modelled as lists of characters. -/
abbrev Str := List Char

/-- Character-list form of a Lean string literal. -/
def str (s : String) : Str := s.data

/-- Python `s.lower()` (ASCII case folding). -/
def pyLower (s : Str) : Str := s.map Char.toLower

/-- Python substring test `needle in hay`. -/
def pyContains (hay needle : Str) : Bool := decide (needle <:+: hay)

/-- The whitespace characters removed by Python `str.strip()` (ASCII part). -/
def isPySpace (c : Char) : Bool :=
  c = ' ' || c = '\t' || c = '\n' || c = '\r' || c = '\x0b' || c = '\x0c'

/-- Python `s.strip()`: remove leading and trailing whitespace. -/
def pyStrip (s : Str) : Str := List.rdropWhile isPySpace (s.dropWhile isPySpace)

/-- The configuration fields read by `CraigSettings.__init__`
(src/craig.py lines 28-43).  Fields that may stay `None` are `Option`;
`viewedListings` and `urlsToSearch` are mutable state carried separately. -/
structure CraigSettings where
  cities : List Str
  cars : List Str
  hasPic : Option Str
  minPrice : Option Str
  maxPrice : Option Str
  minYear : Option Str
  maxYear : Option Str
  minMiles : Option Str
  maxMiles : Option Str
  titleStatus : Option Int
  blacklist : List Str

/-- One `if field != None: sUrl = sUrl + pre + field` step of `BuildUrl`
(src/craig.py lines 134-149). -/
def addOpt (u pre : Str) (o : Option Str) : Str :=
  match o with
  | some v => u ++ pre ++ v
  | none => u

/-- `CraigSettings.BuildUrl` (src/craig.py lines 122-151): renders the
search URL for one city and car model; settings left `None` are omitted. -/
def BuildUrl (s : CraigSettings) (cityName carModel : Str) : Str :=
  let sUrl := str "https://" ++ cityName ++ str ".craigslist.org/search/cta?"
  let sUrl := sUrl ++ str "postedToday=1"
  let sUrl := sUrl ++ str "&searchNearby=0"
  let sUrl := sUrl ++ str "&auto_make_model=" ++ carModel
  let sUrl := addOpt sUrl (str "&hasPic=") s.hasPic
  let sUrl := addOpt sUrl (str "&min_price=") s.minPrice
  let sUrl := addOpt sUrl (str "&max_price=") s.maxPrice
  let sUrl := addOpt sUrl (str "&min_auto_year=") s.minYear
  let sUrl := addOpt sUrl (str "&max_auto_year=") s.maxYear
  let sUrl := addOpt sUrl (str "&min_auto_miles=") s.minMiles
  let sUrl := addOpt sUrl (str "&max_auto_miles=") s.maxMiles
  let sUrl := addOpt sUrl (str "&auto_title_status=")
    (s.titleStatus.map (fun n => str (toString n)))
  sUrl

/-- `CraigSettings.CreateUrls` (src/craig.py lines 112-120): append one URL
per city and per car, cities as the outer loop. -/
def CreateUrls (s : CraigSettings) : List Str :=
  s.cities.foldl
    (fun acc city => s.cars.foldl (fun acc2 car => acc2 ++ [BuildUrl s city car]) acc) []

/-- `CraigSettings.HasBlacklistedWords` (src/craig.py lines 153-161).
NOTE: the source iterates over `self.urlsToSearch`, not `self.blacklist`;
the first argument is the object's `urlsToSearch` state. -/
def HasBlacklistedWords (urlsToSearch : List Str) (sentence : Str) : Bool :=
  urlsToSearch.any (fun word => pyContains (pyLower sentence) word)

/-- `CraigSettings.SaveViewedListings` (src/craig.py lines 100-110): the
lines written to `viewedListings.txt` — the in-memory list reversed, each
item followed by a newline. -/
def SaveViewedListings (viewedListings : List Str) : List Str :=
  viewedListings.reverse.map (fun item => item ++ ['\n'])

/-- Body of the read loop of `LoadViewedListings` (src/craig.py lines
92-96): skip garbage lines, strip and append the others. -/
def loadStep (acc : List Str) (line : Str) : List Str :=
  if line = str "\n" ∨ line = str "\r\n" ∨ line = [] then acc
  else acc ++ [pyStrip line]

/-- `CraigSettings.LoadViewedListings` (src/craig.py lines 86-98): read the
file lines in order, skipping garbage lines and stripping each kept line;
starts from the empty in-memory list. -/
def LoadViewedListings (fileLines : List Str) : List Str :=
  fileLines.foldl loadStep []

/-- `maxLimit = 75` (src/craig.py line 271). -/
def maxLimit : Nat := 75

/-- The end-of-cycle truncation `craig.viewedListings[-maxLimit:]`
(src/craig.py line 355): keep the last `maxLimit` elements. -/
def truncateViewed (l : List Str) : List Str := l.drop (l.length - maxLimit)

/-- Python dict assignment `d[k] = v` on an insertion-ordered association
list: update in place when the key is present, otherwise append. -/
def dictSet (d : List (Str × Str)) (k v : Str) : List (Str × Str) :=
  if d.any (fun kv => kv.1 == k) then
    d.map (fun kv => if kv.1 == k then (k, v) else kv)
  else d ++ [(k, v)]

/-- Python dict read `d[k]` without the `KeyError` case: the value stored
under `k`, if any. -/
def dictGet? (d : List (Str × Str)) (k : Str) : Option Str :=
  (d.find? (fun kv => kv.1 == k)).map Prod.snd

/-- One parsed `result-title` anchor of the search results page: the title
text (`result.contents[0]`) and the `href` attribute. -/
structure ResultEntry where
  title : Str
  href : Str

/-- Python `url.split('.')[0] + '.craigslist.org'` (src/craig.py line 313):
the origin host obtained by truncating the search URL at its first dot. -/
def listingOrigin (url : Str) : Str :=
  (url.splitOn '.').headD [] ++ str ".craigslist.org"

/-- Python `result.attrs['href'].find('//') == 0` (src/craig.py line 310):
the href marks a nearby result exactly when it starts with `//`. -/
def hrefIsNearby (href : Str) : Bool := decide (str "//" <+: href)

/-- The mutable state touched by the per-result loop body: the global
`carColors` and `collectedLinks` dicts and `craig.viewedListings`. -/
structure RunState where
  carColors : List (Str × Str)
  collectedLinks : List (Str × Str)
  viewedListings : List Str

/-- The listing detail-page URL built at src/craig.py lines 313-314: the
origin host of the search URL followed by the entry's href. -/
def fullUrlOf (url : Str) (result : ResultEntry) : Str :=
  listingOrigin url ++ result.href

/-- The colour stored for a listing (src/craig.py lines 327-335): the
enrichment result, or the default `orange` when the fetch raises
(`Except.error` models any exception inside the `try`, which the bare
`except` swallows). -/
def colorOf (enrich : Str → Except Unit Str) (fullUrl : Str) : Str :=
  match enrich fullUrl with
  | Except.ok c => c
  | Except.error _ => str "orange"

/-- Body of `for result in soup.findAll(...)` (src/craig.py lines 307-338).
`urlsToSearch` is the settings object's URL-list state (consulted by
`HasBlacklistedWords`), `url` the search URL being processed, and
`enrich` the detail-page colour fetch. -/
def processResult (urlsToSearch : List Str) (url : Str)
    (enrich : Str → Except Unit Str) (st : RunState) (result : ResultEntry) : RunState :=
  if HasBlacklistedWords urlsToSearch result.title || hrefIsNearby result.href then st
  else if pyLower (fullUrlOf url result) ∈ st.viewedListings then st
  else
    { carColors := dictSet st.carColors (fullUrlOf url result)
        (colorOf enrich (fullUrlOf url result))
      collectedLinks := dictSet st.collectedLinks result.title (fullUrlOf url result)
      viewedListings := st.viewedListings ++ [pyLower (fullUrlOf url result)] }

/-- The whole per-target result loop: fold the loop body over the parsed
result entries in page order. -/
def processResults (urlsToSearch : List Str) (url : Str)
    (enrich : Str → Except Unit Str) (st : RunState) (results : List ResultEntry) : RunState :=
  results.foldl (processResult urlsToSearch url enrich) st

/-- A fetched HTTP response body (`r.text`). -/
abbrev Resp := Str

/-- The connection retry loop for one URL (src/craig.py lines 293-303),
fuel being `10 - attempts`: `outcomes i` is `some r` when the i-th
`requests.get` returns response `r` and `none` when it raises.  Returns
the response (if any try succeeded), the final `attempts` counter, and
the log of `time.sleep` calls (one 60-second sleep after each raised
attempt). -/
def connectLoopGo (outcomes : Nat → Option Resp) : Nat → Nat → Option Resp × Nat × List Nat
  | 0, attempts => (none, attempts, [])
  | fuel + 1, attempts =>
    match outcomes attempts with
    | some r => (some r, attempts, [])
    | none =>
      let rest := connectLoopGo outcomes fuel (attempts + 1)
      (rest.1, rest.2.1, 60 :: rest.2.2)

/-- The connection retry loop started with `attempts = 0` and the source's
bound `attempts < 10`. -/
def connectLoop (outcomes : Nat → Option Resp) : Option Resp × Nat × List Nat :=
  connectLoopGo outcomes 10 0

/-- The per-cycle target loop (src/craig.py lines 291-305) restricted to
the fetch of each target: the variable `r` persists across iterations, so
after a fully failed retry loop the code still evaluates `r.text` — a
`NameError` (modelled `Except.error ()`) when `r` was never assigned,
otherwise the previous target's response is reused.  Returns the response
actually parsed for each target. -/
def fetchTargets (outcomes : Str → Nat → Option Resp) :
    List Str → Option Resp → Except Unit (List (Str × Resp))
  | [], _ => Except.ok []
  | url :: rest, rPrev =>
    let fetched := (connectLoop (outcomes url)).1
    let r :=
      match fetched with
      | some x => some x
      | none => rPrev
    match r with
    | none => Except.error ()
    | some resp =>
      match fetchTargets outcomes rest (some resp) with
      | Except.ok tail => Except.ok ((url, resp) :: tail)
      | Except.error e => Except.error e

/-- One pass of the car-grouping loop of `SendEmail` (src/craig.py lines
206-224): the group for `car` lists the collected links whose lowercased
title contains `car`, in accumulation order; a car with no matching link
contributes no group (the html rollback of lines 222-224). -/
def groupFor (links : List (Str × Str)) (car : Str) : List (Str × Str) :=
  links.filter (fun kv => pyContains (pyLower kv.1) car)

/-- The sequence of non-empty category groups, in car declaration order. -/
def composeGroups (cars : List Str) (links : List (Str × Str)) :
    List (Str × List (Str × Str)) :=
  cars.foldl
    (fun acc car =>
      if (groupFor links car).isEmpty then acc else acc ++ [(car, groupFor links car)]) []

/-- Inner pass over the collected links for one car (src/craig.py lines
212-219): each link whose lowercased title contains the car is stored in
`d` under its title. -/
def buildDInner (car : Str) (links : List (Str × Str)) (d : List (Str × Str)) :
    List (Str × Str) :=
  links.foldl
    (fun d2 kv => if pyContains (pyLower kv.1) car then dictSet d2 kv.1 kv.2 else d2) d

/-- The dict `d` of `SendEmail` (src/craig.py lines 206-219): the inner
pass folded over the cars in declaration order, starting empty. -/
def buildD (cars : List Str) (links : List (Str × Str)) : List (Str × Str) :=
  cars.foldl (fun d car => buildDInner car links d) []

/-- The residual loop of `SendEmail` (src/craig.py lines 230-237): the
collected links whose title was not put into `d`. -/
def otherLinks (cars : List Str) (links : List (Str × Str)) : List (Str × Str) :=
  links.filter (fun kv => !((buildD cars links).any (fun dkv => dkv.1 == kv.1)))

/-- The digest content composed by `SendEmail` (src/craig.py lines
206-237), abstracted from its html rendering: the category groups in car
declaration order, followed by the residual `Other` bucket exactly when
`len(d) < len(collectedLinks)` (line 227). -/
def composeReport (cars : List Str) (links : List (Str × Str)) :
    List (Str × List (Str × Str)) :=
  if (buildD cars links).length < links.length then
    composeGroups cars links ++ [(str "Other", otherLinks cars links)]
  else composeGroups cars links

/-- The `titleStatuses` dict of `SendEmail` (src/craig.py lines 178-179),
keyed by the `Option Int`-valued `titleStatus` setting (`None` is never a
key). -/
def titleStatuses : List (Option Int × Str) :=
  [(some 1, str "clean"), (some 2, str "salvage"), (some 3, str "rebuilt"),
   (some 4, str "parts only"), (some 5, str "lien"), (some 6, str "missing")]

/-- Python dict subscript `titleStatuses[settings_obj.titleStatus]`
(src/craig.py line 201): a missing key raises `KeyError`, modelled
`Except.error ()`. -/
def pyDictGet (d : List (Option Int × Str)) (k : Option Int) : Except Unit Str :=
  match d.find? (fun kv => kv.1 == k) with
  | some kv => Except.ok kv.2
  | none => Except.error ()

/-- `SendEmail` (src/craig.py lines 168-265) abstracted to the digest it
builds: the header interpolation of line 201 requires the `titleStatuses`
lookup to succeed (otherwise the `KeyError` propagates to the caller and
no digest is composed); the body is the grouped report. -/
def SendEmailDigest (s : CraigSettings) (links : List (Str × Str)) :
    Except Unit (Str × List (Str × List (Str × Str))) :=
  match pyDictGet titleStatuses s.titleStatus with
  | Except.error e => Except.error e
  | Except.ok ts => Except.ok (ts, composeReport s.cars links)

/-- The email retry loop (src/craig.py lines 343-351) with fuel:
`outcomes i` tells whether the i-th `SendEmail` attempt returns without
raising; `i` counts the attempts already made.  The source has no attempt
counter — the loop runs until an attempt succeeds (or the accumulation is
empty), sleeping 5 seconds after each failure.  Returns the total number
of attempts when the loop exits, `none` when the fuel is exhausted with
the loop still running. -/
def emailLoopGo (linksLen : Nat) (outcomes : Nat → Bool) : Nat → Nat → Option Nat
  | 0, i => if linksLen = 0 then some i else none
  | fuel + 1, i =>
    if linksLen = 0 then some i
    else if outcomes i then some (i + 1)
    else emailLoopGo linksLen outcomes fuel (i + 1)

/-- The end-of-cycle outcome (src/craig.py lines 343-362). -/
structure CycleEnd where
  attempts : Nat
  savedFile : List Str
  viewedListings : List Str
  collectedLinks : List (Str × Str)
  carColors : List (Str × Str)

/-- Lines 343-362 of src/craig.py: the email retry loop, then truncation
and persistence of the viewed listings, then clearing of the run
accumulation.  `none` when the (unbounded) email loop is still running
after `fuel` iterations: persistence is then never reached. -/
def cycleTail (st : RunState) (outcomes : Nat → Bool) (fuel : Nat) : Option CycleEnd :=
  match emailLoopGo st.collectedLinks.length outcomes fuel 0 with
  | none => none
  | some n =>
    let viewed := truncateViewed st.viewedListings
    some
    { attempts := n
      savedFile := SaveViewedListings viewed
      viewedListings := viewed
      collectedLinks := []
      carColors := [] }

/-- One optional filter of `BuildUrl` as a (parameter name, value) block:
one rendered parameter when the setting is present, none otherwise. -/
def pOpt (nm : Str) (o : Option Str) : List (Str × Str) :=
  match o with
  | some v => [(nm, v)]
  | none => []

/-- The optional filter parameters rendered by `BuildUrl`, as
(name, value) pairs in source order. -/
def paramList (s : CraigSettings) : List (Str × Str) :=
  pOpt (str "hasPic") s.hasPic ++ pOpt (str "min_price") s.minPrice
    ++ pOpt (str "max_price") s.maxPrice ++ pOpt (str "min_auto_year") s.minYear
    ++ pOpt (str "max_auto_year") s.maxYear ++ pOpt (str "min_auto_miles") s.minMiles
    ++ pOpt (str "max_auto_miles") s.maxMiles
    ++ pOpt (str "auto_title_status") (s.titleStatus.map (fun n => str (toString n)))

/-- Text of one rendered URL parameter. -/
def renderParam (nv : Str × Str) : Str := str "&" ++ nv.1 ++ str "=" ++ nv.2

/-- Number of optional filters that are set in the criteria. -/
def numSetFilters (s : CraigSettings) : Nat :=
  [s.hasPic.isSome, s.minPrice.isSome, s.maxPrice.isSome, s.minYear.isSome,
   s.maxYear.isSome, s.minMiles.isSome, s.maxMiles.isSome, s.titleStatus.isSome].count true

/-! ## Concrete example data -/

/-- Identifier rendered as a short decimal string (example data). -/
def natId (n : Nat) : Str := str (toString n)

/-- Example: 76 identifiers added before a restart, oldest first. -/
def exStore76 : List Str := (List.range 76).map natId

/-- Example: one identifier added after the restart. -/
def exNewId : Str := str "new"

/-- Example settings with `titleStatus` left unset. -/
def exSettingsNoTS : CraigSettings :=
  ⟨[], [], none, none, none, none, none, none, none, none, []⟩

/-- Example settings for the blacklist scenario of spec §8: one city, one
car, blacklist keyword `salvage`, no optional filters. -/
def exSettings : CraigSettings :=
  ⟨[str "metroa"], [str "sedan"], none, none, none, none, none, none, none, none,
   [str "salvage"]⟩

/-- Example candidate title containing the blacklisted word. -/
def exTitle : Str := str "2020 Sedan SALVAGE title"

/-- Example candidate href. -/
def exHref : Str := str "/cto/d/2020-sedan/7001.html"

/-- Example transport behaviour: every attempt raises. -/
def allFailOutcomes : Nat → Option Resp := fun _ => none

/-- Example search URLs for the fetch-retry scenario. -/
def exUrlA : Str := str "https://a.craigslist.org/search/cta?x"

/-- Second example search URL. -/
def exUrlB : Str := str "https://b.craigslist.org/search/cta?x"

/-- Example transport: URL A succeeds immediately with body `pageA`; any
other fetch raises. -/
def exOutcomesAB : Str → Nat → Option Resp :=
  fun url i => if url = exUrlA then (if i = 0 then some (str "pageA") else none) else none

/-- Example run state holding one collected link. -/
def exStateOneLink : RunState :=
  ⟨[(str "u", str "orange")], [(str "t", str "u")], [str "u"]⟩

/-- Example settings for the dedup scenario: one city `c`, one car `x`,
no optional filters. -/
def exSettings2 : CraigSettings :=
  ⟨[str "c"], [str "x"], none, none, none, none, none, none, none, none, []⟩

/-- The search URL generated from `exSettings2`. -/
def exUrl2 : Str := BuildUrl exSettings2 (str "c") (str "x")

/-- Enrichment that always fails (colour defaults to `orange`). -/
def exEnrichFail : Str → Except Unit Str := fun _ => Except.error ()

/-- The i-th example result entry: title `t i`, href `/d i`. -/
def exEntry (i : Nat) : ResultEntry :=
  ⟨str "t" ++ str (toString i), str "/d" ++ str (toString i)⟩

/-- 76 distinct candidates fetched in the first example cycle. -/
def exCycle1 : List ResultEntry := (List.range 76).map exEntry

/-- The detail URL of the i-th example candidate. -/
def exFullUrl (i : Nat) : Str := fullUrlOf exUrl2 (exEntry i)

/-- The run state after processing the first example cycle from an empty
store. -/
def exAfterCycle1 : RunState :=
  processResults (CreateUrls exSettings2) exUrl2 exEnrichFail ⟨[], [], []⟩ exCycle1

/-- The run state of the second example cycle: the first cycle's truncated
store, the same candidate `exEntry 0` fetched again. -/
def exAfterCycle2 : RunState :=
  processResults (CreateUrls exSettings2) exUrl2 exEnrichFail
    ⟨[], [], truncateViewed exAfterCycle1.viewedListings⟩ [exEntry 0]

/-! ## Helper lemmas -/

theorem dropWhile_eq_self_of_length {α : Type} (p : α → Bool) (l : List α)
    (h : (l.dropWhile p).length = l.length) : l.dropWhile p = l :=
  (List.dropWhile_suffix p).sublist.eq_of_length h

theorem pyStrip_parts {s : Str} (h : pyStrip s = s) :
    s.dropWhile isPySpace = s ∧ List.rdropWhile isPySpace s = s := by
  have hle1 : (List.rdropWhile isPySpace (s.dropWhile isPySpace)).length
      ≤ (s.dropWhile isPySpace).length :=
    (List.rdropWhile_prefix _ _).sublist.length_le
  have hle2 : (s.dropWhile isPySpace).length ≤ s.length :=
    (List.dropWhile_suffix _).sublist.length_le
  have hlen := congrArg List.length h
  unfold pyStrip at hlen
  have h1 : (s.dropWhile isPySpace).length = s.length := by omega
  have hd : s.dropWhile isPySpace = s := dropWhile_eq_self_of_length _ _ h1
  refine ⟨hd, ?_⟩
  have h2 := h
  unfold pyStrip at h2
  rwa [hd] at h2

theorem pyStrip_append_newline {s : Str} (hne : s ≠ []) (h : pyStrip s = s) :
    pyStrip (s ++ ['\n']) = s := by
  obtain ⟨hd, hr⟩ := pyStrip_parts h
  obtain ⟨c, t, rfl⟩ := List.exists_cons_of_ne_nil hne
  have hpc : isPySpace c = false := by
    by_cases hc : isPySpace c = true
    · exfalso
      rw [List.dropWhile_cons, if_pos hc] at hd
      have hlen := congrArg List.length hd
      have hle : (t.dropWhile isPySpace).length ≤ t.length :=
        (List.dropWhile_suffix _).sublist.length_le
      simp only [List.length_cons] at hlen
      omega
    · simpa using hc
  unfold pyStrip
  have hstep : List.dropWhile isPySpace ((c :: t) ++ ['\n']) = (c :: t) ++ ['\n'] := by
    rw [List.cons_append, List.dropWhile_cons, if_neg (by simp [hpc])]
  rw [hstep, List.rdropWhile_concat_pos _ _ _ (by decide), hr]

theorem load_foldl_append (lines : List Str) (acc : List Str) :
    lines.foldl loadStep acc = acc ++ lines.foldl loadStep [] := by
  induction lines generalizing acc with
  | nil => simp
  | cons line rest ih =>
    rw [List.foldl_cons, List.foldl_cons, ih (loadStep acc line), ih (loadStep [] line)]
    by_cases h : line = str "\n" ∨ line = str "\r\n" ∨ line = []
    · simp [loadStep, h]
    · simp [loadStep, h, List.append_assoc]

theorem load_save_aux : ∀ m : List Str,
    (∀ item ∈ m, item ≠ [] ∧ pyStrip item = item) →
    (m.map (fun item => item ++ ['\n'])).foldl loadStep [] = m := by
  intro m
  induction m with
  | nil => intro _; rfl
  | cons item rest ih =>
    intro hgood
    obtain ⟨hne, hstrip⟩ := hgood item (by simp)
    rw [List.map_cons, List.foldl_cons, load_foldl_append,
      ih (fun x hx => hgood x (by simp [hx]))]
    have hline : loadStep [] (item ++ ['\n']) = [item] := by
      have hc : ¬(item ++ ['\n'] = str "\n" ∨ item ++ ['\n'] = str "\r\n"
          ∨ item ++ ['\n'] = []) := by
        rintro (h1 | h2 | h3)
        · exact hne (by simpa using congrArg (List.dropLast) h1)
        · have hr1 : item = ['\r'] := by
            have h2' : item ++ ['\n'] = ['\r'] ++ ['\n'] := by simpa [str] using h2
            exact (List.append_inj' h2' rfl).1
          rw [hr1] at hstrip
          exact absurd hstrip (by decide)
        · simpa using congrArg List.length h3
      rw [loadStep, if_neg hc, pyStrip_append_newline hne hstrip]
      rfl
    rw [hline]
    rfl

theorem saveLoad_eq_reverse (l : List Str)
    (hgood : ∀ item ∈ l, item ≠ [] ∧ pyStrip item = item) :
    LoadViewedListings (SaveViewedListings l) = l.reverse := by
  unfold LoadViewedListings SaveViewedListings
  exact load_save_aux l.reverse (fun x hx => hgood x (List.mem_reverse.mp hx))

/-! ## C6 — persistence round-trip -/

/-- C6: `SaveViewedListings` writes the in-memory list most-recent-first
(reversed) and `LoadViewedListings` rebuilds the list in the order read,
so for non-empty, whitespace-stripped, newline-free identifiers a load
after a save yields the reverse of the original in-memory list. -/
theorem C6_saveLoad_roundtrip : ∀ l : List Str,
    (∀ item ∈ l, item ≠ [] ∧ pyStrip item = item ∧ '\n' ∉ item) →
    LoadViewedListings (SaveViewedListings l) = l.reverse := by
  intro l hgood
  exact saveLoad_eq_reverse l
    (fun x hx => ⟨(hgood x hx).1, (hgood x hx).2.1⟩)

/-- Witness for C6 at a concrete store. -/
theorem C6_saveLoad_roundtrip_witness :
    LoadViewedListings (SaveViewedListings [str "a", str "b"]) = [str "b", str "a"] :=
  C6_saveLoad_roundtrip [str "a", str "b"] (by decide)

/-! ## C5 — truncation bound and retention -/

set_option maxRecDepth 40000 in
/-- C5 counterexample: after a save/load restart the reconstructed order
is reversed, so the end-of-cycle truncation keeps the OLDEST loaded entry
and evicts more recent ones.  With 76 identifiers added before the
restart and one after, identifier 74 (recently added) is evicted while
identifier 0 (the oldest) is retained — the retained entries are not the
most recently added ones, refuting the claim for this reachable store
state. -/
theorem C5_counterexample :
    natId 0 ∈ truncateViewed (LoadViewedListings (SaveViewedListings exStore76) ++ [exNewId])
    ∧ natId 74 ∉ truncateViewed (LoadViewedListings (SaveViewedListings exStore76) ++ [exNewId])
    ∧ natId 74 ∈ truncateViewed (exStore76 ++ [exNewId])
    ∧ natId 0 ∉ truncateViewed (exStore76 ++ [exNewId]) := by decide

/-- C5 (amended): after truncation the store length never exceeds the
configured maximum of 75 (it equals `min 75 length`), and the retained
entries are a suffix of the in-memory list — within a single process run
(appends at the tail, no reload) these are exactly the most recently
added ones.  After a restart the in-memory order is reversed by the
load, so truncation can instead retain the oldest loaded entries. -/
theorem C5_truncation_amended :
    (∀ l : List Str, (truncateViewed l).length ≤ maxLimit)
    ∧ (∀ l : List Str, (truncateViewed l).length = min maxLimit l.length)
    ∧ (∀ l : List Str, ∃ pre, pre ++ truncateViewed l = l) := by
  refine ⟨fun l => ?_, fun l => ?_, fun l => ?_⟩
  · unfold truncateViewed
    rw [List.length_drop]
    omega
  · unfold truncateViewed
    rw [List.length_drop]
    omega
  · exact ⟨l.take (l.length - maxLimit), List.take_append_drop _ l⟩

/-! ## C10 — digest requires titleStatus -/

/-- C10: composing the digest requires `titleStatus` to be set to one of
1..6: with `titleStatus` unset the `titleStatuses` lookup of line 201 has
no matching key, the `KeyError` propagates out of `SendEmail`, and no
digest is composed even with a non-empty accumulation; conversely a
successfully composed digest implies `titleStatus` is set and lies in
1..6. -/
theorem C10_titleStatus_required :
    (∀ (s : CraigSettings) (links : List (Str × Str)),
      links ≠ [] → s.titleStatus = none → SendEmailDigest s links = Except.error ())
    ∧ (∀ (s : CraigSettings) (links : List (Str × Str)) r,
      SendEmailDigest s links = Except.ok r →
      ∃ n, s.titleStatus = some n ∧ 1 ≤ n ∧ n ≤ 6) := by
  constructor
  · intro s links _ hts
    unfold SendEmailDigest
    rw [hts]
    rfl
  · intro s links r h
    cases hfind : List.find? (fun kv => kv.1 == s.titleStatus) titleStatuses with
    | none =>
      rw [SendEmailDigest, pyDictGet, hfind] at h
      exact absurd h (by simp)
    | some kv =>
      have hmem : kv ∈ titleStatuses := List.mem_of_find?_eq_some hfind
      have hp := List.find?_some hfind
      have hkey : kv.1 = s.titleStatus := by simpa using hp
      have hkeys : kv.1 ∈ titleStatuses.map Prod.fst := List.mem_map_of_mem _ hmem
      rw [hkey] at hkeys
      simp only [titleStatuses, List.map_cons, List.map_nil, List.mem_cons,
        List.not_mem_nil, or_false] at hkeys
      rcases hkeys with h1 | h1 | h1 | h1 | h1 | h1 <;>
        · rw [h1]
          refine ⟨_, rfl, by omega, by omega⟩

/-- Witness for C10 at a concrete settings object and accumulation. -/
theorem C10_titleStatus_required_witness :
    SendEmailDigest exSettingsNoTS [(str "t", str "u")] = Except.error () :=
  C10_titleStatus_required.1 exSettingsNoTS [(str "t", str "u")] (by decide) rfl

/-! ## C1 — blacklist filtering -/

/-- C1: the blacklist membership test is broken — `HasBlacklistedWords`
iterates over `self.urlsToSearch` instead of `self.blacklist`
(src/craig.py line 158), contradicting its own docstring and the comment
on the `blacklist` field.  With spec §8's scenario (blacklist `salvage`,
title containing `SALVAGE`), the intended test on the blacklist flags the
title, the actual code does not, and the candidate both triggers the
enrichment fetch and enters the accumulation from which the report is
composed. -/
theorem C1_blacklist_bug :
    pyContains (pyLower exTitle) (str "salvage") = true
    ∧ HasBlacklistedWords exSettings.blacklist exTitle = true
    ∧ HasBlacklistedWords (CreateUrls exSettings) exTitle = false
    ∧ (processResult (CreateUrls exSettings)
        (BuildUrl exSettings (str "metroa") (str "sedan"))
        (fun _ => Except.ok (str "red")) ⟨[], [], []⟩ ⟨exTitle, exHref⟩).collectedLinks
      = [(exTitle, str "https://metroa.craigslist.org" ++ exHref)]
    ∧ (processResult (CreateUrls exSettings)
        (BuildUrl exSettings (str "metroa") (str "sedan"))
        (fun _ => Except.ok (str "red")) ⟨[], [], []⟩ ⟨exTitle, exHref⟩).carColors
      = [(str "https://metroa.craigslist.org" ++ exHref, str "red")] := by decide

/-! ## C3 — fetch retry and target skipping -/

theorem connectLoopGo_bound (outcomes : Nat → Option Resp) :
    ∀ (fuel attempts : Nat),
      (connectLoopGo outcomes fuel attempts).2.1 ≤ attempts + fuel
      ∧ (connectLoopGo outcomes fuel attempts).2.2.length ≤ fuel := by
  intro fuel
  induction fuel with
  | zero => intro a; simp [connectLoopGo]
  | succ f ih =>
    intro a
    cases h : outcomes a with
    | some r => simp [connectLoopGo, h]
    | none =>
      obtain ⟨ih1, ih2⟩ := ih (a + 1)
      simp only [connectLoopGo, h, List.length_cons]
      constructor <;> omega

/-- C3: the per-target fetch is retried at most 10 times (at most 10
raising attempts, each followed by one 60-second sleep), but after the
final failure the target is NOT skipped: the loop falls through to
`r.text` (line 305), which raises `NameError` and aborts the cycle when
no earlier target ever succeeded, and otherwise silently reprocesses the
previous target's response instead of moving on. -/
theorem C3_fetch_retry_bug :
    (∀ outcomes : Nat → Option Resp,
      (connectLoop outcomes).2.1 ≤ 10 ∧ (connectLoop outcomes).2.2.length ≤ 10)
    ∧ connectLoop allFailOutcomes = (none, 10, List.replicate 10 60)
    ∧ fetchTargets (fun _ => allFailOutcomes) [exUrlA] none = Except.error ()
    ∧ fetchTargets exOutcomesAB [exUrlA, exUrlB] none
      = Except.ok [(exUrlA, str "pageA"), (exUrlB, str "pageA")] := by
  refine ⟨fun outcomes => ?_, by decide, by rfl, by rfl⟩
  obtain ⟨h1, h2⟩ := connectLoopGo_bound outcomes 10 0
  unfold connectLoop
  exact ⟨by omega, h2⟩

/-! ## C4 — email retry and cycle termination -/

/-- C4 counterexample: with a non-empty accumulation and a notifier whose
every attempt raises, the email retry loop of lines 343-351 never exits —
no amount of fuel suffices — so the cycle never reaches persistence and
the accumulation is never cleared.  The retry is unbounded, refuting the
claimed bounded retry count. -/
theorem C4_counterexample :
    ¬ ∃ fuel r, cycleTail exStateOneLink (fun _ => false) fuel = some r := by
  rintro ⟨fuel, r, h⟩
  have hloop : ∀ f i,
      emailLoopGo exStateOneLink.collectedLinks.length (fun _ => false) f i = none := by
    intro f
    induction f with
    | zero => intro i; simp [emailLoopGo, exStateOneLink]
    | succ ff ih => intro i; simpa [emailLoopGo, exStateOneLink] using ih (i + 1)
  rw [cycleTail, hloop] at h
  exact absurd h (by simp)

theorem emailLoopGo_succ (len : Nat) (outcomes : Nat → Bool) (fuel i : Nat) :
    emailLoopGo len outcomes (fuel + 1) i =
      if len = 0 then some i
      else if outcomes i then some (i + 1)
      else emailLoopGo len outcomes fuel (i + 1) := rfl

theorem emailLoopGo_first_success (len : Nat) (outcomes : Nat → Bool) (hlen : len ≠ 0) :
    ∀ k i, (∀ j, j < k → outcomes (i + j) = false) → outcomes (i + k) = true →
      emailLoopGo len outcomes (k + 1) i = some (i + k + 1) := by
  intro k
  induction k with
  | zero =>
    intro i _ hk
    simp only [Nat.add_zero] at hk
    simp [emailLoopGo, hlen, hk]
  | succ kk ih =>
    intro i hfail hk
    have h0 : outcomes i = false := by simpa using hfail 0 (by omega)
    have hfail' : ∀ j, j < kk → outcomes ((i + 1) + j) = false := by
      intro j hj
      have harith : (i + 1) + j = i + (j + 1) := by omega
      rw [harith]
      exact hfail (j + 1) (by omega)
    have hk' : outcomes ((i + 1) + kk) = true := by
      have harith : (i + 1) + kk = i + (kk + 1) := by omega
      rw [harith]
      exact hk
    have hrec := ih (i + 1) hfail' hk'
    rw [emailLoopGo_succ, if_neg hlen, if_neg (by simp [h0]), hrec]
    congr 1
    omega

/-- C4 (amended): the notifier retry is UNBOUNDED — the loop of lines
343-351 runs until an attempt succeeds (sleeping 5 seconds after each
failure) or the accumulation is empty, with no attempt limit; whenever
the loop does exit, the cycle persists the truncated store and clears
the run accumulation (`collectedLinks` and `carColors`). -/
theorem C4_email_amended :
    (∀ (st : RunState) (outcomes : Nat → Bool) (k : Nat),
      0 < st.collectedLinks.length →
      (∀ j, j < k → outcomes j = false) → outcomes k = true →
      cycleTail st outcomes (k + 1) = some
        ⟨k + 1, SaveViewedListings (truncateViewed st.viewedListings),
          truncateViewed st.viewedListings, [], []⟩)
    ∧ (∀ (st : RunState) (outcomes : Nat → Bool) (fuel : Nat) (r : CycleEnd),
        cycleTail st outcomes fuel = some r →
        r.collectedLinks = [] ∧ r.carColors = []
        ∧ r.viewedListings = truncateViewed st.viewedListings
        ∧ r.savedFile = SaveViewedListings (truncateViewed st.viewedListings))
    ∧ (∀ (st : RunState) (outcomes : Nat → Bool), st.collectedLinks = [] →
        cycleTail st outcomes 0 = some
          ⟨0, SaveViewedListings (truncateViewed st.viewedListings),
            truncateViewed st.viewedListings, [], []⟩) := by
  refine ⟨?_, ?_, ?_⟩
  · intro st outcomes k hlen hfail hk
    have hne : st.collectedLinks.length ≠ 0 := by omega
    have := emailLoopGo_first_success st.collectedLinks.length outcomes hne k 0
      (fun j hj => by simpa using hfail j hj) (by simpa using hk)
    rw [cycleTail, this]
    simp
  · intro st outcomes fuel r h
    cases hq : emailLoopGo st.collectedLinks.length outcomes fuel 0 with
    | none => rw [cycleTail, hq] at h; exact absurd h (by simp)
    | some n =>
      rw [cycleTail, hq] at h
      simp only [Option.some.injEq] at h
      rw [← h]
      exact ⟨rfl, rfl, rfl, rfl⟩
  · intro st outcomes hempty
    rw [cycleTail]
    rw [hempty]
    rfl

/-- Witness for C4 (amended) at a concrete state and notifier. -/
theorem C4_email_amended_witness :
    cycleTail exStateOneLink (fun _ => true) 1
      = some ⟨1, SaveViewedListings (truncateViewed exStateOneLink.viewedListings),
          truncateViewed exStateOneLink.viewedListings, [], []⟩ :=
  C4_email_amended.1 exStateOneLink (fun _ => true) 0 (by decide)
    (fun j hj => absurd hj (by omega)) rfl

/-! ## C2 — cross-cycle dedup -/

theorem mem_dictSet {d : List (Str × Str)} {k v : Str} {p : Str × Str}
    (hp : p ∈ dictSet d k v) : p ∈ d ∨ p.2 = v := by
  unfold dictSet at hp
  split at hp
  · obtain ⟨kv, hkv, heq⟩ := List.mem_map.mp hp
    by_cases hk : (kv.1 == k) = true
    · right
      rw [if_pos hk] at heq
      rw [← heq]
    · left
      rw [if_neg hk] at heq
      exact heq ▸ hkv
  · rcases List.mem_append.mp hp with h | h
    · exact Or.inl h
    · right
      have : p = (k, v) := by simpa using h
      rw [this]

theorem processResult_dedup (urls : List Str) (url : Str)
    (enrich : Str → Except Unit Str) (st : RunState) (res : ResultEntry) (u : Str)
    (h1 : pyLower u ∈ st.viewedListings)
    (h2 : ∀ p ∈ st.collectedLinks, pyLower p.2 ≠ pyLower u) :
    pyLower u ∈ (processResult urls url enrich st res).viewedListings
    ∧ ∀ p ∈ (processResult urls url enrich st res).collectedLinks,
        pyLower p.2 ≠ pyLower u := by
  unfold processResult
  split
  · exact ⟨h1, h2⟩
  · split
    · exact ⟨h1, h2⟩
    · rename_i hnotdup
      constructor
      · exact List.mem_append.mpr (Or.inl h1)
      · intro p hp
        rcases mem_dictSet hp with hmem | hval
        · exact h2 p hmem
        · rw [hval]
          intro hcontra
          exact hnotdup (hcontra ▸ h1)

theorem processResults_dedup (urls : List Str) (url : Str)
    (enrich : Str → Except Unit Str) (u : Str) :
    ∀ (results : List ResultEntry) (st : RunState),
      pyLower u ∈ st.viewedListings →
      (∀ p ∈ st.collectedLinks, pyLower p.2 ≠ pyLower u) →
      pyLower u ∈ (processResults urls url enrich st results).viewedListings
      ∧ ∀ p ∈ (processResults urls url enrich st results).collectedLinks,
          pyLower p.2 ≠ pyLower u := by
  intro results
  induction results with
  | nil => intro st hh1 hh2; exact ⟨hh1, hh2⟩
  | cons res rest ih =>
    intro st hh1 hh2
    obtain ⟨hs1, hs2⟩ := processResult_dedup urls url enrich st res u hh1 hh2
    exact ih (processResult urls url enrich st res) hs1 hs2

set_option maxRecDepth 100000 in
/-- C2 counterexample: the identifier of candidate 0 is added to the
seen store during the first cycle, yet the end-of-cycle truncation to 75
entries evicts it (it is the oldest of 76), and a later cycle fetching
the same candidate includes it in the accumulation again and in the
composed report — the identifier is reported twice, refuting the claim. -/
theorem C2_counterexample :
    pyLower (exFullUrl 0) ∈ exAfterCycle1.viewedListings
    ∧ ((exEntry 0).title, exFullUrl 0) ∈ exAfterCycle2.collectedLinks
    ∧ ∃ g ∈ composeReport exSettings2.cars exAfterCycle2.collectedLinks,
        ((exEntry 0).title, exFullUrl 0) ∈ g.2 := by decide

/-- C2 (amended): an identifier is never re-reported WHILE it remains in
the seen store: if the store contains it and the accumulation has no link
with that (lowercased) identifier, the same holds after processing any
sequence of candidates, so no such link can reach the report; and a
save/load of the store preserves membership (for non-empty,
whitespace-stripped identifiers), so this also holds across a restart.
However the end-of-cycle truncation to 75 entries may evict the
identifier (and after a restart the reversed reconstruction order changes
which entries are evicted), after which it can be reported again. -/
theorem C2_dedup_amended :
    (∀ (urls : List Str) (url : Str) (enrich : Str → Except Unit Str)
        (results : List ResultEntry) (st : RunState) (u : Str),
      pyLower u ∈ st.viewedListings →
      (∀ p ∈ st.collectedLinks, pyLower p.2 ≠ pyLower u) →
      pyLower u ∈ (processResults urls url enrich st results).viewedListings
      ∧ ∀ p ∈ (processResults urls url enrich st results).collectedLinks,
          pyLower p.2 ≠ pyLower u)
    ∧ (∀ l : List Str, (∀ item ∈ l, item ≠ [] ∧ pyStrip item = item) →
        ∀ x, x ∈ LoadViewedListings (SaveViewedListings l) ↔ x ∈ l) := by
  constructor
  · intro urls url enrich results st u hh1 hh2
    exact processResults_dedup urls url enrich u results st hh1 hh2
  · intro l hgood x
    rw [saveLoad_eq_reverse l hgood]
    exact List.mem_reverse

/-- Witness for C2 (amended): a store already holding the identifier of
candidate 0 never collects it again, and membership survives a save/load. -/
theorem C2_dedup_amended_witness :
    (pyLower (exFullUrl 0)
        ∈ (processResults (CreateUrls exSettings2) exUrl2 exEnrichFail
            ⟨[], [], [pyLower (exFullUrl 0)]⟩ [exEntry 0]).viewedListings
      ∧ ∀ p ∈ (processResults (CreateUrls exSettings2) exUrl2 exEnrichFail
            ⟨[], [], [pyLower (exFullUrl 0)]⟩ [exEntry 0]).collectedLinks,
          pyLower p.2 ≠ pyLower (exFullUrl 0))
    ∧ (str "abc" ∈ LoadViewedListings (SaveViewedListings [str "abc"]) ↔ str "abc" ∈ [str "abc"]) :=
  ⟨C2_dedup_amended.1 (CreateUrls exSettings2) exUrl2 exEnrichFail [exEntry 0]
      ⟨[], [], [pyLower (exFullUrl 0)]⟩ (exFullUrl 0) (by simp) (by simp),
    C2_dedup_amended.2 [str "abc"] (by decide) (str "abc")⟩

/-! ## C7 — query target generation -/

theorem pOpt_mem {nm a v : Str} {o : Option Str} :
    (a, v) ∈ pOpt nm o ↔ a = nm ∧ o = some v := by
  cases o with
  | none => simp [pOpt]
  | some w =>
    simp only [pOpt, List.mem_singleton, Prod.mk.injEq, Option.some.injEq]
    constructor
    · rintro ⟨hl1, hl2⟩
      exact ⟨hl1, hl2.symm⟩
    · rintro ⟨hl1, hl2⟩
      exact ⟨hl1, hl2.symm⟩

theorem addOpt_renderParam (u pre nm : Str) (o : Option Str)
    (hpre : pre = str "&" ++ nm ++ str "=") :
    addOpt u pre o = u ++ ((pOpt nm o).map renderParam).flatten := by
  subst hpre
  cases o <;> simp [addOpt, pOpt, renderParam, List.append_assoc]

theorem BuildUrl_decomp (s : CraigSettings) (city car : Str) :
    BuildUrl s city car
      = str "https://" ++ city ++ str ".craigslist.org/search/cta?"
        ++ str "postedToday=1" ++ str "&searchNearby=0" ++ str "&auto_make_model=" ++ car
        ++ ((paramList s).map renderParam).flatten := by
  simp only [BuildUrl]
  rw [addOpt_renderParam _ (str "&hasPic=") (str "hasPic") _ (by decide),
    addOpt_renderParam _ (str "&min_price=") (str "min_price") _ (by decide),
    addOpt_renderParam _ (str "&max_price=") (str "max_price") _ (by decide),
    addOpt_renderParam _ (str "&min_auto_year=") (str "min_auto_year") _ (by decide),
    addOpt_renderParam _ (str "&max_auto_year=") (str "max_auto_year") _ (by decide),
    addOpt_renderParam _ (str "&min_auto_miles=") (str "min_auto_miles") _ (by decide),
    addOpt_renderParam _ (str "&max_auto_miles=") (str "max_auto_miles") _ (by decide),
    addOpt_renderParam _ (str "&auto_title_status=") (str "auto_title_status") _ (by decide)]
  simp [paramList, List.map_append, List.flatten_append, List.append_assoc]

theorem foldl_append_map {α β : Type} (f : α → β) :
    ∀ (l : List α) (acc : List β),
      l.foldl (fun a x => a ++ [f x]) acc = acc ++ l.map f := by
  intro l
  induction l with
  | nil => intro acc; simp
  | cons x xs ih =>
    intro acc
    rw [List.foldl_cons, ih]
    simp

theorem createUrls_flatMap (s : CraigSettings) :
    CreateUrls s
      = s.cities.flatMap (fun city => s.cars.map (fun car => BuildUrl s city car)) := by
  unfold CreateUrls
  have haux : ∀ (cities : List Str) (acc : List Str),
      cities.foldl
          (fun acc2 city => s.cars.foldl (fun a car => a ++ [BuildUrl s city car]) acc2) acc
        = acc ++ cities.flatMap (fun city => s.cars.map (fun car => BuildUrl s city car)) := by
    intro cities
    induction cities with
    | nil => intro acc; simp
    | cons c cs ih =>
      intro acc
      rw [List.foldl_cons, foldl_append_map, ih]
      simp [List.append_assoc]
  simpa using haux s.cities []

theorem createUrls_length (s : CraigSettings) :
    (CreateUrls s).length = s.cities.length * s.cars.length := by
  rw [createUrls_flatMap]
  induction s.cities with
  | nil => simp
  | cons c cs ih => simp [List.flatMap_cons, ih, Nat.succ_mul, Nat.add_comm]

theorem paramList_length (s : CraigSettings) :
    (paramList s).length = numSetFilters s := by
  rcases s with ⟨cities, cars, hp, mnp, mxp, mny, mxy, mnm, mxm, ts, bl⟩
  cases hp <;> cases mnp <;> cases mxp <;> cases mny <;> cases mxy <;> cases mnm <;>
    cases mxm <;> cases ts <;> rfl

/-- C7: `CreateUrls` produces exactly one query URL per (city, car) pair —
the cross product with cities as outer loop and cars as inner loop in
declaration order — and each URL is the fixed base (scheme, city host,
`postedToday`, `searchNearby`, `auto_make_model`) followed by one rendered
parameter per SET optional filter: unset filters contribute nothing, and a
parameter name occurs in the parameter list exactly when its filter is
set, with the configured value. -/
theorem C7_query_targets (s : CraigSettings) :
    CreateUrls s
        = s.cities.flatMap (fun city => s.cars.map (fun car => BuildUrl s city car))
    ∧ (CreateUrls s).length = s.cities.length * s.cars.length
    ∧ (∀ city car, BuildUrl s city car
        = str "https://" ++ city ++ str ".craigslist.org/search/cta?"
          ++ str "postedToday=1" ++ str "&searchNearby=0" ++ str "&auto_make_model=" ++ car
          ++ ((paramList s).map renderParam).flatten)
    ∧ (paramList s).length = numSetFilters s
    ∧ (∀ v, (str "hasPic", v) ∈ paramList s ↔ s.hasPic = some v)
    ∧ (∀ v, (str "min_price", v) ∈ paramList s ↔ s.minPrice = some v)
    ∧ (∀ v, (str "max_price", v) ∈ paramList s ↔ s.maxPrice = some v)
    ∧ (∀ v, (str "min_auto_year", v) ∈ paramList s ↔ s.minYear = some v)
    ∧ (∀ v, (str "max_auto_year", v) ∈ paramList s ↔ s.maxYear = some v)
    ∧ (∀ v, (str "min_auto_miles", v) ∈ paramList s ↔ s.minMiles = some v)
    ∧ (∀ v, (str "max_auto_miles", v) ∈ paramList s ↔ s.maxMiles = some v)
    ∧ (∀ v, (str "auto_title_status", v) ∈ paramList s
        ↔ ∃ n, s.titleStatus = some n ∧ str (toString n) = v) := by
  refine ⟨createUrls_flatMap s, createUrls_length s,
    fun city car => BuildUrl_decomp s city car, paramList_length s,
    ?_, ?_, ?_, ?_, ?_, ?_, ?_, ?_⟩ <;>
    · intro v
      simp only [paramList, List.mem_append, pOpt_mem]
      simp +decide [Option.map_eq_some]

/-! ## C8 — digest grouping -/

theorem dictSet_mem_self (d : List (Str × Str)) (k v : Str) : (k, v) ∈ dictSet d k v := by
  unfold dictSet
  split
  · rename_i hany
    obtain ⟨kv, hkv, hk⟩ := List.any_eq_true.mp hany
    refine List.mem_map.mpr ⟨kv, hkv, ?_⟩
    rw [if_pos hk]
  · exact List.mem_append.mpr (Or.inr (by simp))

theorem dictGet?_dictSet (k v : Str) :
    ∀ d : List (Str × Str), dictGet? (dictSet d k v) k = some v := by
  intro d
  induction d with
  | nil => simp [dictSet, dictGet?]
  | cons kv d' ih =>
    by_cases h1 : (kv.1 == k) = true
    · have hany : ((kv :: d').any fun p => p.1 == k) = true := by simp [List.any_cons, h1]
      unfold dictSet
      rw [if_pos hany]
      simp only [List.map_cons, if_pos h1]
      unfold dictGet?
      simp [List.find?_cons]
    · by_cases h2 : (d'.any fun p => p.1 == k) = true
      · have hany : ((kv :: d').any fun p => p.1 == k) = true := by
          simp only [List.any_cons, h2, Bool.or_true]
        unfold dictSet
        rw [if_pos hany]
        simp only [List.map_cons, if_neg h1]
        unfold dictGet?
        simp only [List.find?_cons, h1]
        have hrw : dictSet d' k v = d'.map (fun p => if p.1 == k then (k, v) else p) := by
          unfold dictSet
          rw [if_pos h2]
        have hres := ih
        rw [dictGet?, hrw] at hres
        simpa using hres
      · have hany : ((kv :: d').any fun p => p.1 == k) = false := by
          rw [List.any_cons, Bool.or_eq_false_iff]
          constructor
          · revert h1
            cases kv.1 == k <;> simp
          · revert h2
            cases d'.any fun p => p.1 == k <;> simp
        unfold dictSet
        rw [if_neg (by simp [hany])]
        unfold dictGet?
        rw [List.cons_append]
        simp only [List.find?_cons, h1]
        have hrw : dictSet d' k v = d' ++ [(k, v)] := by
          unfold dictSet
          rw [if_neg (by simp [h2])]
        have hres := ih
        rw [dictGet?, hrw] at hres
        simpa using hres

theorem dictSet_keys (d : List (Str × Str)) (k v : Str) :
    (dictSet d k v).map Prod.fst
      = if k ∈ d.map Prod.fst then d.map Prod.fst else d.map Prod.fst ++ [k] := by
  have hany : (d.any fun kv => kv.1 == k) = decide (k ∈ d.map Prod.fst) := by
    induction d with
    | nil => simp
    | cons kv d' ih =>
      simp only [List.any_cons, ih, List.map_cons, List.mem_cons]
      by_cases h : (kv.1 == k) = true
      · have : k = kv.1 := (beq_iff_eq.mp h).symm
        simp [h, this]
      · have : ¬(k = kv.1) := fun hc => h (beq_iff_eq.mpr hc.symm)
        simp [h, this]
  unfold dictSet
  rw [hany]
  by_cases hmem : k ∈ d.map Prod.fst
  · rw [if_pos (by simpa using hmem), if_pos hmem, List.map_map]
    apply List.map_congr_left
    intro kv _
    by_cases h : (kv.1 == k) = true
    · simp only [Function.comp_apply, if_pos h]
      exact (beq_iff_eq.mp h).symm
    · simp only [Function.comp_apply, if_neg h]
  · rw [if_neg (by simpa using hmem), if_neg hmem, List.map_append]
    rfl

theorem mem_keys_dictSet {d : List (Str × Str)} {k v x : Str} :
    x ∈ (dictSet d k v).map Prod.fst ↔ (x ∈ d.map Prod.fst ∨ x = k) := by
  rw [dictSet_keys]
  by_cases h : k ∈ d.map Prod.fst
  · rw [if_pos h]
    constructor
    · exact Or.inl
    · rintro (hx | rfl)
      · exact hx
      · exact h
  · rw [if_neg h]
    simp

theorem dictSet_keys_nodup {d : List (Str × Str)} {k v : Str}
    (h : (d.map Prod.fst).Nodup) : ((dictSet d k v).map Prod.fst).Nodup := by
  rw [dictSet_keys]
  by_cases hmem : k ∈ d.map Prod.fst
  · rwa [if_pos hmem]
  · rw [if_neg hmem]
    simp [List.nodup_append, h, hmem]

theorem foldl_hoist {α β : Type} (f : List β → α → List β)
    (hf : ∀ acc x, f acc x = acc ++ f [] x) :
    ∀ (l : List α) (acc : List β), l.foldl f acc = acc ++ l.foldl f [] := by
  intro l
  induction l with
  | nil => intro acc; simp
  | cons x xs ih =>
    intro acc
    rw [List.foldl_cons, ih (f acc x), List.foldl_cons, ih (f [] x), hf acc x,
      List.append_assoc]

theorem composeGroups_eq (cars : List Str) (links : List (Str × Str)) :
    composeGroups cars links
      = (cars.filter (fun car => !(groupFor links car).isEmpty)).map
          (fun car => (car, groupFor links car)) := by
  have hf : ∀ (acc : List (Str × List (Str × Str))) (car : Str),
      (if (groupFor links car).isEmpty then acc else acc ++ [(car, groupFor links car)])
        = acc ++ (if (groupFor links car).isEmpty then ([] : List (Str × List (Str × Str)))
            else [] ++ [(car, groupFor links car)]) := by
    intro acc car
    by_cases h : (groupFor links car).isEmpty <;> simp [h]
  unfold composeGroups
  induction cars with
  | nil => rfl
  | cons c cs ih =>
    rw [List.foldl_cons, foldl_hoist _ hf cs, ih, List.filter_cons]
    by_cases h : (groupFor links c).isEmpty
    · simp [h]
    · simp [h]

theorem composeGroups_labels_sublist (cars : List Str) (links : List (Str × Str)) :
    ((composeGroups cars links).map Prod.fst).Sublist cars := by
  rw [composeGroups_eq, List.map_map]
  have hcomp : (Prod.fst ∘ fun car => (car, groupFor links car)) = fun car : Str => car := rfl
  rw [hcomp]
  simp

theorem mem_composeGroups {cars : List Str} {links : List (Str × Str)}
    {car : Str} {g : List (Str × Str)} :
    (car, g) ∈ composeGroups cars links
      ↔ car ∈ cars ∧ g = groupFor links car ∧ g ≠ [] := by
  rw [composeGroups_eq]
  simp only [List.mem_map, List.mem_filter]
  constructor
  · rintro ⟨c, ⟨hc, hne⟩, heq⟩
    have hcar : c = car := congrArg Prod.fst heq
    have hg : groupFor links c = g := congrArg Prod.snd heq
    subst hcar
    refine ⟨hc, hg.symm, ?_⟩
    rw [← hg]
    intro hnil
    rw [hnil] at hne
    simp at hne
  · rintro ⟨hc, rfl, hne⟩
    refine ⟨car, ⟨hc, ?_⟩, rfl⟩
    simpa [List.isEmpty_iff] using hne

theorem buildDInner_keys (car : Str) :
    ∀ (links d : List (Str × Str)) (x : Str),
      x ∈ (buildDInner car links d).map Prod.fst
        ↔ x ∈ d.map Prod.fst
          ∨ (x ∈ links.map Prod.fst ∧ pyContains (pyLower x) car = true) := by
  intro links
  induction links with
  | nil => intro d x; simp [buildDInner]
  | cons kv rest ih =>
    intro d x
    have hstep : buildDInner car (kv :: rest) d
        = buildDInner car rest
            (if pyContains (pyLower kv.1) car = true then dictSet d kv.1 kv.2 else d) := rfl
    rw [hstep]
    simp only [List.map_cons]
    by_cases h : pyContains (pyLower kv.1) car = true
    · rw [if_pos h, ih, mem_keys_dictSet]
      constructor
      · rintro ((hx | rfl) | ⟨hx, hm⟩)
        · exact Or.inl hx
        · exact Or.inr ⟨List.mem_cons_self _ _, h⟩
        · exact Or.inr ⟨List.mem_cons_of_mem _ hx, hm⟩
      · rintro (hx | ⟨hx, hm⟩)
        · exact Or.inl (Or.inl hx)
        · rcases List.mem_cons.mp hx with rfl | hx2
          · exact Or.inl (Or.inr rfl)
          · exact Or.inr ⟨hx2, hm⟩
    · rw [if_neg h, ih]
      constructor
      · rintro (hx | ⟨hx, hm⟩)
        · exact Or.inl hx
        · exact Or.inr ⟨List.mem_cons_of_mem _ hx, hm⟩
      · rintro (hx | ⟨hx, hm⟩)
        · exact Or.inl hx
        · rcases List.mem_cons.mp hx with rfl | hx2
          · exact absurd hm h
          · exact Or.inr ⟨hx2, hm⟩

theorem buildDInner_keys_nodup (car : Str) :
    ∀ (links d : List (Str × Str)), (d.map Prod.fst).Nodup →
      ((buildDInner car links d).map Prod.fst).Nodup := by
  intro links
  induction links with
  | nil => intro d h; simpa [buildDInner] using h
  | cons kv rest ih =>
    intro d h
    have hstep : buildDInner car (kv :: rest) d
        = buildDInner car rest
            (if pyContains (pyLower kv.1) car = true then dictSet d kv.1 kv.2 else d) := rfl
    rw [hstep]
    by_cases hc : pyContains (pyLower kv.1) car = true
    · rw [if_pos hc]
      exact ih _ (dictSet_keys_nodup h)
    · rw [if_neg hc]
      exact ih _ h

theorem buildD_fold_keys (links : List (Str × Str)) (x : Str) :
    ∀ (cars : List Str) (d : List (Str × Str)),
      x ∈ ((cars.foldl (fun d2 car => buildDInner car links d2) d).map Prod.fst)
        ↔ x ∈ d.map Prod.fst
          ∨ (x ∈ links.map Prod.fst ∧ ∃ car ∈ cars, pyContains (pyLower x) car = true) := by
  intro cars
  induction cars with
  | nil => intro d; simp
  | cons c cs ih =>
    intro d
    refine Iff.trans (ih (buildDInner c links d)) ?_
    rw [buildDInner_keys]
    constructor
    · rintro ((hx | ⟨hx, hm⟩) | ⟨hx, car, hcar, hm⟩)
      · exact Or.inl hx
      · exact Or.inr ⟨hx, c, List.mem_cons_self _ _, hm⟩
      · exact Or.inr ⟨hx, car, List.mem_cons_of_mem _ hcar, hm⟩
    · rintro (hx | ⟨hx, car, hcar, hm⟩)
      · exact Or.inl (Or.inl hx)
      · rcases List.mem_cons.mp hcar with rfl | hcar2
        · exact Or.inl (Or.inr ⟨hx, hm⟩)
        · exact Or.inr ⟨hx, car, hcar2, hm⟩

theorem buildD_keys (cars : List Str) (links : List (Str × Str)) (x : Str) :
    x ∈ (buildD cars links).map Prod.fst
      ↔ x ∈ links.map Prod.fst ∧ ∃ car ∈ cars, pyContains (pyLower x) car = true := by
  rw [buildD, buildD_fold_keys]
  simp

theorem buildD_keys_nodup (cars : List Str) (links : List (Str × Str)) :
    ((buildD cars links).map Prod.fst).Nodup := by
  rw [buildD]
  have haux : ∀ (cs : List Str) (d : List (Str × Str)), (d.map Prod.fst).Nodup →
      ((cs.foldl (fun d2 car => buildDInner car links d2) d).map Prod.fst).Nodup := by
    intro cs
    induction cs with
    | nil => intro d h; exact h
    | cons c cs2 ih => intro d h; exact ih _ (buildDInner_keys_nodup c links d h)
  exact haux cars [] (by simp)

theorem otherLinks_eq (cars : List Str) (links : List (Str × Str)) :
    otherLinks cars links
      = links.filter (fun kv => !(cars.any (fun car => pyContains (pyLower kv.1) car))) := by
  unfold otherLinks
  apply List.filter_congr
  intro kv hkv
  have hiff : ((buildD cars links).any (fun dkv => dkv.1 == kv.1)) = true
      ↔ (cars.any (fun car => pyContains (pyLower kv.1) car)) = true := by
    rw [List.any_eq_true]
    constructor
    · rintro ⟨dkv, hdkv, hbeq⟩
      have hx : dkv.1 = kv.1 := beq_iff_eq.mp hbeq
      have hmem : dkv.1 ∈ (buildD cars links).map Prod.fst := List.mem_map_of_mem _ hdkv
      rw [buildD_keys] at hmem
      obtain ⟨_, car, hcar, hm⟩ := hmem
      rw [hx] at hm
      exact List.any_eq_true.mpr ⟨car, hcar, hm⟩
    · intro hany
      obtain ⟨car, hcar, hm⟩ := List.any_eq_true.mp hany
      have hmem : kv.1 ∈ (buildD cars links).map Prod.fst := by
        rw [buildD_keys]
        exact ⟨List.mem_map_of_mem _ hkv, car, hcar, hm⟩
      obtain ⟨dkv, hdkv, hfst⟩ := List.mem_map.mp hmem
      exact ⟨dkv, hdkv, beq_iff_eq.mpr hfst⟩
  cases hb : (cars.any fun car => pyContains (pyLower kv.1) car) with
  | false =>
    have hzero : ((buildD cars links).any fun dkv => dkv.1 == kv.1) = false := by
      cases hq : ((buildD cars links).any fun dkv => dkv.1 == kv.1) with
      | false => rfl
      | true => exact absurd (hiff.mp hq) (by simp [hb])
    rw [hzero]
  | true =>
    rw [hiff.mpr hb]

theorem filter_length_lt_iff {α : Type} (p : α → Bool) :
    ∀ l : List α, ((l.filter p).length < l.length ↔ l.filter (fun x => !(p x)) ≠ []) := by
  intro l
  induction l with
  | nil => simp
  | cons x xs ih =>
    rw [List.filter_cons, List.filter_cons]
    by_cases h : p x = true
    · rw [if_pos h, if_neg (by simp [h])]
      simp only [List.length_cons]
      rw [Nat.succ_lt_succ_iff]
      exact ih
    · rw [if_neg h, if_pos (by revert h; cases p x <;> simp)]
      constructor
      · intro _
        simp
      · intro _
        simp only [List.length_cons]
        exact Nat.lt_succ_of_le (List.length_filter_le p xs)

theorem buildD_length (cars : List Str) (links : List (Str × Str))
    (hnodup : (links.map Prod.fst).Nodup) :
    (buildD cars links).length
      = (links.filter (fun kv => cars.any (fun car => pyContains (pyLower kv.1) car))).length := by
  have h1 : ((buildD cars links).map Prod.fst).Nodup := buildD_keys_nodup cars links
  have hsub : (links.filter
      (fun kv => cars.any (fun car => pyContains (pyLower kv.1) car))).Sublist links :=
    List.filter_sublist links
  have h2 : ((links.filter
      (fun kv => cars.any (fun car => pyContains (pyLower kv.1) car))).map Prod.fst).Nodup :=
    List.Nodup.sublist (hsub.map Prod.fst) hnodup
  have hmemiff : ∀ x, x ∈ (buildD cars links).map Prod.fst
      ↔ x ∈ (links.filter
          (fun kv => cars.any (fun car => pyContains (pyLower kv.1) car))).map Prod.fst := by
    intro x
    rw [buildD_keys]
    constructor
    · rintro ⟨hx, car, hcar, hm⟩
      obtain ⟨kv, hkv, hfst⟩ := List.mem_map.mp hx
      refine List.mem_map.mpr ⟨kv, List.mem_filter.mpr ⟨hkv, ?_⟩, hfst⟩
      rw [hfst]
      exact List.any_eq_true.mpr ⟨car, hcar, hm⟩
    · intro hx
      obtain ⟨kv, hkvf, hfst⟩ := List.mem_map.mp hx
      obtain ⟨hkv, hpred⟩ := List.mem_filter.mp hkvf
      obtain ⟨car, hcar, hm⟩ := List.any_eq_true.mp hpred
      rw [hfst] at hm
      exact ⟨List.mem_map.mpr ⟨kv, hkv, hfst⟩, car, hcar, hm⟩
  have hperm := List.perm_of_nodup_nodup_toFinset_eq h1 h2
    (by
      ext x
      simp only [List.mem_toFinset]
      exact hmemiff x)
  have hlen := hperm.length_eq
  simpa using hlen

theorem mem_composeReport (cars : List Str) (links : List (Str × Str))
    (hnodup : (links.map Prod.fst).Nodup) (kv : Str × Str) (hkv : kv ∈ links) :
    ∃ g ∈ composeReport cars links, kv ∈ g.2 := by
  by_cases hmatch : (cars.any fun car => pyContains (pyLower kv.1) car) = true
  · obtain ⟨car, hcar, hm⟩ := List.any_eq_true.mp hmatch
    have hkvg : kv ∈ groupFor links car := by
      unfold groupFor
      exact List.mem_filter.mpr ⟨hkv, hm⟩
    have hg : (car, groupFor links car) ∈ composeGroups cars links :=
      mem_composeGroups.mpr ⟨hcar, rfl, List.ne_nil_of_mem hkvg⟩
    refine ⟨(car, groupFor links car), ?_, hkvg⟩
    unfold composeReport
    split
    · exact List.mem_append.mpr (Or.inl hg)
    · exact hg
  · have hkvother : kv ∈ otherLinks cars links := by
      rw [otherLinks_eq]
      refine List.mem_filter.mpr ⟨hkv, ?_⟩
      revert hmatch
      cases cars.any fun car => pyContains (pyLower kv.1) car <;> simp
    have hne : links.filter
        (fun x => !(cars.any fun car => pyContains (pyLower x.1) car)) ≠ [] := by
      apply List.ne_nil_of_mem
      rw [otherLinks_eq] at hkvother
      exact hkvother
    have hlt : (buildD cars links).length < links.length := by
      rw [buildD_length cars links hnodup, filter_length_lt_iff]
      exact hne
    refine ⟨(str "Other", otherLinks cars links), ?_, hkvother⟩
    unfold composeReport
    rw [if_pos hlt]
    exact List.mem_append.mpr (Or.inr (by simp))

theorem buildD_length_lt_iff (cars : List Str) (links : List (Str × Str))
    (hnodup : (links.map Prod.fst).Nodup) :
    ((buildD cars links).length < links.length ↔ otherLinks cars links ≠ []) := by
  rw [buildD_length cars links hnodup, otherLinks_eq, filter_length_lt_iff]

/-- C8 counterexample: a listing whose title matches two declared
categories is emitted in BOTH category groups — the dict `d` of
`SendEmail` only gates the residual bucket, not the per-car loops — so
with cars `honda` and `civic` and a single accumulated listing titled
`honda civic`, two groups of the report contain the listing, refuting
"each accumulated listing appears in exactly one group". -/
theorem C8_counterexample :
    (composeReport [str "honda", str "civic"] [(str "honda civic", str "u")]).countP
        (fun g => decide ((str "honda civic", str "u") ∈ g.2)) = 2 := by decide

/-- C8 (amended): the report has at most one group per distinct declared
category (group labels are a sublist of the declared cars, hence follow
declaration order, and are duplicate-free when the declared cars are);
the residual `Other` bucket holds exactly the listings matching no
declared category and is appended last, exactly when it is non-empty
(for title-keyed accumulations, as the pipeline builds them); and no
accumulated listing is dropped — each appears in at least one group.
However a listing matching several declared categories appears in each
matching group, not in exactly one. -/
theorem C8_report_amended (cars : List Str) (links : List (Str × Str)) :
    ((composeGroups cars links).map Prod.fst).Sublist cars
    ∧ (cars.Nodup → ((composeGroups cars links).map Prod.fst).Nodup)
    ∧ (∀ car g, (car, g) ∈ composeGroups cars links
        ↔ car ∈ cars ∧ g = groupFor links car ∧ g ≠ [])
    ∧ (∀ kv, kv ∈ otherLinks cars links
        ↔ kv ∈ links ∧ ∀ car ∈ cars, pyContains (pyLower kv.1) car = false)
    ∧ ((links.map Prod.fst).Nodup →
        (otherLinks cars links = [] → composeReport cars links = composeGroups cars links)
        ∧ (otherLinks cars links ≠ [] →
            composeReport cars links
              = composeGroups cars links ++ [(str "Other", otherLinks cars links)]))
    ∧ ((links.map Prod.fst).Nodup → ∀ kv ∈ links,
        ∃ g ∈ composeReport cars links, kv ∈ g.2) := by
  refine ⟨composeGroups_labels_sublist cars links,
    fun h => List.Nodup.sublist (composeGroups_labels_sublist cars links) h,
    fun car g => mem_composeGroups, ?_, ?_, ?_⟩
  · intro kv
    rw [otherLinks_eq, List.mem_filter]
    constructor
    · rintro ⟨h1, h2⟩
      refine ⟨h1, fun car hcar => ?_⟩
      by_contra hc
      have hct : pyContains (pyLower kv.1) car = true := by
        revert hc
        cases pyContains (pyLower kv.1) car <;> simp
      have hany : (cars.any fun car => pyContains (pyLower kv.1) car) = true :=
        List.any_eq_true.mpr ⟨car, hcar, hct⟩
      rw [hany] at h2
      simp at h2
    · rintro ⟨h1, h2⟩
      refine ⟨h1, ?_⟩
      have hany : (cars.any fun car => pyContains (pyLower kv.1) car) = false := by
        cases hq : (cars.any fun car => pyContains (pyLower kv.1) car) with
        | false => rfl
        | true =>
          obtain ⟨car, hcar, hm⟩ := List.any_eq_true.mp hq
          rw [h2 car hcar] at hm
          exact absurd hm (by simp)
      rw [hany]
      rfl
  · intro hnodup
    refine ⟨fun hempty => ?_, fun hne => ?_⟩
    · have hnlt : ¬((buildD cars links).length < links.length) := by
        rw [buildD_length_lt_iff cars links hnodup]
        simp [hempty]
      unfold composeReport
      rw [if_neg hnlt]
    · have hlt : (buildD cars links).length < links.length := by
        rw [buildD_length_lt_iff cars links hnodup]
        exact hne
      unfold composeReport
      rw [if_pos hlt]
  · intro hnodup kv hkv
    exact mem_composeReport cars links hnodup kv hkv

/-- Witness for C8 (amended) at a concrete accumulation. -/
theorem C8_report_amended_witness :
    ((composeGroups [str "x"] [(str "tx", str "u")]).map Prod.fst).Nodup
    ∧ ∃ g ∈ composeReport [str "x"] [(str "tx", str "u")], (str "tx", str "u") ∈ g.2 :=
  ⟨(C8_report_amended [str "x"] [(str "tx", str "u")]).2.1 (by decide),
    (C8_report_amended [str "x"] [(str "tx", str "u")]).2.2.2.2.2 (by decide)
      (str "tx", str "u") (by decide)⟩

/-! ## C9 — best-effort enrichment -/

/-- C9: when the enrichment fetch for a surviving candidate fails for any
reason, the candidate is still recorded in the accumulation, the colour
stored for its URL is the fixed default `orange`, and it appears in the
composed report like any other accumulated listing; `processResult` is a
total function whose error path stores the default instead of
propagating, so the failure cannot abort the cycle. -/
theorem C9_enrichment_default (urls : List Str) (url : Str)
    (enrich : Str → Except Unit Str) (st : RunState) (res : ResultEntry)
    (hbl : HasBlacklistedWords urls res.title = false)
    (hnear : hrefIsNearby res.href = false)
    (hdup : pyLower (fullUrlOf url res) ∉ st.viewedListings)
    (hfail : enrich (fullUrlOf url res) = Except.error ()) :
    (res.title, fullUrlOf url res) ∈ (processResult urls url enrich st res).collectedLinks
    ∧ dictGet? (processResult urls url enrich st res).carColors (fullUrlOf url res)
        = some (str "orange")
    ∧ ∀ cars : List Str,
        ((processResult urls url enrich st res).collectedLinks.map Prod.fst).Nodup →
          ∃ g ∈ composeReport cars (processResult urls url enrich st res).collectedLinks,
            (res.title, fullUrlOf url res) ∈ g.2 := by
  have hcolor : colorOf enrich (fullUrlOf url res) = str "orange" := by
    unfold colorOf
    rw [hfail]
  have hred : processResult urls url enrich st res
      = { carColors := dictSet st.carColors (fullUrlOf url res)
            (colorOf enrich (fullUrlOf url res))
          collectedLinks := dictSet st.collectedLinks res.title (fullUrlOf url res)
          viewedListings := st.viewedListings ++ [pyLower (fullUrlOf url res)] } := by
    unfold processResult
    rw [hbl, hnear]
    rw [if_neg (by simp)]
    rw [if_neg hdup]
  rw [hred]
  refine ⟨dictSet_mem_self _ _ _, ?_, ?_⟩
  · rw [hcolor]
    exact dictGet?_dictSet _ _ st.carColors
  · intro cars hnodup
    exact mem_composeReport cars _ hnodup _ (dictSet_mem_self _ _ _)

/-- Witness for C9: candidate 0 of the dedup scenario with an
always-failing enrichment still reaches the accumulation, is coloured
`orange`, and appears in the report. -/
theorem C9_enrichment_default_witness :
    ((exEntry 0).title, fullUrlOf exUrl2 (exEntry 0))
        ∈ (processResult (CreateUrls exSettings2) exUrl2 exEnrichFail
            ⟨[], [], []⟩ (exEntry 0)).collectedLinks
    ∧ dictGet? (processResult (CreateUrls exSettings2) exUrl2 exEnrichFail
          ⟨[], [], []⟩ (exEntry 0)).carColors (fullUrlOf exUrl2 (exEntry 0))
        = some (str "orange")
    ∧ ∃ g ∈ composeReport [str "x"]
          (processResult (CreateUrls exSettings2) exUrl2 exEnrichFail
            ⟨[], [], []⟩ (exEntry 0)).collectedLinks,
        ((exEntry 0).title, fullUrlOf exUrl2 (exEntry 0)) ∈ g.2 :=
  have h := C9_enrichment_default (CreateUrls exSettings2) exUrl2 exEnrichFail
    ⟨[], [], []⟩ (exEntry 0) (by decide) (by decide) (by decide) rfl
  ⟨h.1, h.2.1, h.2.2 [str "x"] (by decide)⟩

end Craig
